import Mathlib

/-!
Verification of the paged KV-cache (block allocator + block table) and the
tiered layer-window manager of this repository.

The definitions below are a shallow embedding of
`src/llama-kv-cache-paged.{h,cpp}` and `src/llama-layer-window.{h,cpp}`:
  * machine integers (`uint32_t`, `size_t`, `llama_pos`) are modelled as `Nat`
    (`llama_pos` is an `int32_t` that every modelled operation first asserts
    nonnegative and then casts to `uint32_t`, so `Nat` is the faithful domain);
    `int32_t` quantities that can be negative (`llama_seq_id`, layer indices,
    `staging_slot`) are modelled as `Int`;
  * the C++ `std::vector` free list is a stack whose top is `vector::back`;
    it is modelled as a `List` whose HEAD is the top of the stack, so
    `push_back` is `cons`, `back` is `head`, `pop_back` is `tail`;
  * `std::unordered_map<llama_seq_id, std::vector<uint32_t>>` is modelled as a
    partial map `Int → Option (List Nat)`;
  * C++ `assert`s are preconditions: the Lean functions are total (returning a
    default or leaving the state unchanged where the source would assert), and
    the theorems carry the asserted conditions as hypotheses;
  * raw pointers (`void *`, tensor data pointers, buffer handles) are modelled
    as integer addresses; the identity of a `ggml_tensor` node is its position
    in the layer's field list.
-/

/-! ## Block allocator (`llama_block_allocator`, src/llama-kv-cache-paged.cpp) -/

structure llama_block_allocator where
  block_size : Nat
  num_blocks : Nat
  free_list : List Nat
  ref_count : List Nat
deriving Repr, DecidableEq

namespace llama_block_allocator

/-- Constructor `llama_block_allocator(total_cells, blk_size)`:
`num_blocks = total_cells / blk_size`, all ref counts zero, and the free list
filled by `push_back(i-1)` for `i = num_blocks, …, 1`, so the resulting stack
pops `0, 1, 2, …` in order.  In the head-is-top encoding the stack is
`[0, 1, …, num_blocks-1] = List.range num_blocks`. -/
def mk_alloc (total_cells blk_size : Nat) : llama_block_allocator :=
  { block_size := blk_size
    num_blocks := total_cells / blk_size
    free_list := List.range (total_cells / blk_size)
    ref_count := List.replicate (total_cells / blk_size) 0 }

/-- `allocate()`: pops the top of the free list and sets its ref count to 1.
The source asserts `!free_list.empty()`; on an empty list the model returns
block 0 with the state unchanged (unreachable under the precondition). -/
def allocate (a : llama_block_allocator) : Nat × llama_block_allocator :=
  match a.free_list with
  | [] => (0, a)
  | block_id :: rest =>
      (block_id, { a with free_list := rest, ref_count := a.ref_count.set block_id 1 })

/-- `free_block(block_id)`: decrements `ref_count[block_id]` and pushes the
block when the count reaches zero.  The source asserts `block_id < num_blocks`
and `ref_count[block_id] > 0`; under that precondition the `Nat` subtraction
below coincides with the `uint32_t` decrement. -/
def free_block (a : llama_block_allocator) (block_id : Nat) : llama_block_allocator :=
  let r := a.ref_count.getD block_id 0 - 1
  let rc := a.ref_count.set block_id r
  if r = 0 then
    { a with ref_count := rc, free_list := block_id :: a.free_list }
  else
    { a with ref_count := rc }

/-- `inc_ref(block_id)`: increments `ref_count[block_id]`.  The source checks
`block_id < num_blocks` and `ref_count[block_id] > 0` only by debug `assert`s;
as compiled in release builds the increment is unconditional, which the model
reproduces. -/
def inc_ref (a : llama_block_allocator) (block_id : Nat) : llama_block_allocator :=
  { a with ref_count := a.ref_count.set block_id (a.ref_count.getD block_id 0 + 1) }

/-- `can_allocate(n_blocks)`: true iff the free list holds at least `n_blocks`. -/
def can_allocate (a : llama_block_allocator) (n_blocks : Nat) : Bool :=
  n_blocks ≤ a.free_list.length

/-- `num_free()`: size of the free list. -/
def num_free (a : llama_block_allocator) : Nat :=
  a.free_list.length

/-- `total()`: total number of blocks. -/
def total (a : llama_block_allocator) : Nat :=
  a.num_blocks

end llama_block_allocator

/-! ## Concrete scenario states used by the spec's examples -/

namespace scenario

/-- The allocator constructed with `(128, 32)`: 4 blocks. -/
def a0 : llama_block_allocator := llama_block_allocator.mk_alloc 128 32

def p1 : Nat × llama_block_allocator := a0.allocate

def p2 : Nat × llama_block_allocator := p1.2.allocate

def p3 : Nat × llama_block_allocator := p2.2.allocate

def p4 : Nat × llama_block_allocator := p3.2.allocate

/-- The state after `allocate() = 0, 1, 2, 3` followed by `free_block(2)`. -/
def a_freed : llama_block_allocator := p4.2.free_block 2

end scenario

/-! ## Block table (`llama_block_table`, src/llama-kv-cache-paged.cpp) -/

structure llama_block_table where
  block_size : Nat
  tables : Int → Option (List Nat)

namespace llama_block_table

/-- `logical_to_physical(seq, pos)`:
`tables[seq][pos / block_size] * block_size + pos % block_size`.
The source asserts `pos >= 0` (hence `pos : Nat` here), that `seq` is present
and that `pos / block_size` is within the block list; out of range the model
returns the formula with a default block 0. -/
def logical_to_physical (t : llama_block_table) (seq : Int) (pos : Nat) : Nat :=
  match t.tables seq with
  | none => 0
  | some blocks =>
      blocks.getD (pos / t.block_size) 0 * t.block_size + pos % t.block_size

/-- `append_block(seq, block_id)`: appends to the sequence's block list,
creating the list if the sequence is absent (`unordered_map::operator[]`). -/
def append_block (t : llama_block_table) (seq : Int) (block_id : Nat) : llama_block_table :=
  let cur := (t.tables seq).getD []
  { t with tables := fun s => if s = seq then some (cur ++ [block_id]) else t.tables s }

/-- `capacity(seq)`: `size * block_size`, or 0 for an unknown sequence. -/
def capacity (t : llama_block_table) (seq : Int) : Nat :=
  match t.tables seq with
  | none => 0
  | some blocks => blocks.length * t.block_size

/-- `num_blocks_for(seq)`: number of blocks, or 0 for an unknown sequence. -/
def num_blocks_for (t : llama_block_table) (seq : Int) : Nat :=
  match t.tables seq with
  | none => 0
  | some blocks => blocks.length

/-- `has_seq(seq)`. -/
def has_seq (t : llama_block_table) (seq : Int) : Bool :=
  (t.tables seq).isSome

/-- `needs_new_block(seq, new_total_tokens)`: `new_total_tokens > capacity(seq)`. -/
def needs_new_block (t : llama_block_table) (seq : Int) (new_total_tokens : Nat) : Bool :=
  t.capacity seq < new_total_tokens

/-- `share(src, dst, alloc)`: copies `tables[src]` into `tables[dst]`, then
calls `inc_ref` on each entry of the copied list.  The source asserts that
`src` exists; when it does not, the model leaves everything unchanged. -/
def share (t : llama_block_table) (src dst : Int) (alloc : llama_block_allocator) :
    llama_block_table × llama_block_allocator :=
  match t.tables src with
  | none => (t, alloc)
  | some blocks =>
      ({ t with tables := fun s => if s = dst then some blocks else t.tables s },
       blocks.foldl llama_block_allocator.inc_ref alloc)

/-- `free_seq(seq, alloc)`: calls `free_block` on every block of the sequence
and erases the entry; a no-op when the sequence is absent. -/
def free_seq (t : llama_block_table) (seq : Int) (alloc : llama_block_allocator) :
    llama_block_table × llama_block_allocator :=
  match t.tables seq with
  | none => (t, alloc)
  | some blocks =>
      ({ t with tables := fun s => if s = seq then none else t.tables s },
       blocks.foldl llama_block_allocator.free_block alloc)

/-- `remove_blocks_range(seq, pos_start, pos_end, alloc)`:
`block_start = pos_start / block_size`,
`block_end = min ((pos_end + block_size - 1) / block_size) size`; when
`block_start < block_end`, frees `blocks[i]` for `i ∈ [block_start, block_end)`
in increasing order and erases that span from the list. -/
def remove_blocks_range (t : llama_block_table) (seq : Int) (pos_start pos_end : Nat)
    (alloc : llama_block_allocator) : llama_block_table × llama_block_allocator :=
  match t.tables seq with
  | none => (t, alloc)
  | some blocks =>
      let block_start := pos_start / t.block_size
      let block_end := min ((pos_end + t.block_size - 1) / t.block_size) blocks.length
      if block_start ≥ block_end then (t, alloc)
      else
        let removed := (blocks.drop block_start).take (block_end - block_start)
        ({ t with tables := fun s =>
             if s = seq then some (blocks.take block_start ++ blocks.drop block_end)
             else t.tables s },
         removed.foldl llama_block_allocator.free_block alloc)

end llama_block_table

/-! ## Layer window (`llama_layer_window`, src/llama-layer-window.{h,cpp})

A `ggml_tensor` is reduced to the three fields the window manager touches:
the data pointer, the buffer handle (both integer addresses) and its byte
size.  A `llama_layer` is the ordered list of its `ggml_tensor *` fields
(`attn_norm` through `indexer_attn_q_b`); `none` models a null field, which
`for_each_layer_tensor` skips.  The identity of a tensor node is its position
in this list. -/

structure ggml_tensor where
  data : Int
  buffer : Int
  nbytes : Nat
deriving Repr, DecidableEq

/-- A `llama_layer` as seen by `for_each_layer_tensor`: the contiguous
`ggml_tensor *` fields in declaration order, `none` for null pointers. -/
def llama_layer := List (Option ggml_tensor)

instance : DecidableEq llama_layer := by
  unfold llama_layer
  infer_instance

inductive llama_layer_tier where
  | GPU
  | CPU
  | DISK
deriving Repr, DecidableEq

/-- `llama_tensor_saved_ptr`: the source stores the `ggml_tensor *` node
pointer together with its original `data` and `buffer`; the node pointer is
modelled by the tensor's position (`idx`) in the layer's field list. -/
structure llama_tensor_saved_ptr where
  idx : Nat
  orig_data : Int
  orig_buffer : Int
deriving Repr, DecidableEq

/-- `llama_layer_window_entry` restricted to the fields read or written by
`swap_layer_to_gpu` / `swap_layer_to_cpu` (`il`, `xfer_state` and
`weight_bytes` are never touched by those two functions). -/
structure llama_layer_window_entry where
  tier : llama_layer_tier
  staging_slot : Int
  saved_ptrs : List llama_tensor_saved_ptr
deriving DecidableEq

/-- The `llama_layer_window` fields used by `get_window_range`,
`swap_layer_to_gpu` and `swap_layer_to_cpu`: layer/window counts, the active
staging slot, and per-slot base address and handle of `staging_gpu_buffer`. -/
structure llama_layer_window where
  n_layer : Int
  n_window : Int
  active_slot : Nat
  staging_gpu_base : Nat → Int
  staging_gpu_buf : Nat → Int

namespace llama_layer_window

/-- `enabled()`: `n_window > 0 && n_window < n_layer`. -/
def enabled (w : llama_layer_window) : Bool :=
  0 < w.n_window ∧ w.n_window < w.n_layer

/-- `get_window_range(current_il)`: `(0, n_layer)` when windowing is disabled;
otherwise `start = current_il - n_window/2`, `end = start + n_window`, with the
two sequential clamping branches of the source. -/
def get_window_range (w : llama_layer_window) (current_il : Int) : Int × Int :=
  if ¬ w.enabled then (0, w.n_layer)
  else
    let half := w.n_window / 2
    let start0 := current_il - half
    let end0 := start0 + w.n_window
    let p1 := if start0 < 0 then (0, min w.n_window w.n_layer) else (start0, end0)
    let p2 := if p1.2 > w.n_layer then (max 0 (w.n_layer - w.n_window), w.n_layer) else p1
    p2

/-- The loop body of `swap_layer_to_gpu`: walks the tensor fields in order,
recording `(t, t->data, t->buffer)` for each non-null tensor and rebinding it
to `base + offset` in buffer `buf`, advancing `offset` by `nbytes(t)`.
`i` is the absolute position of the current field (the node identity). -/
def stage_tensors (base : Int) (buf : Int) :
    List (Option ggml_tensor) → Nat → Nat →
    List llama_tensor_saved_ptr × List (Option ggml_tensor)
  | [], _, _ => ([], [])
  | none :: rest, i, off =>
      let r := stage_tensors base buf rest (i + 1) off
      (r.1, none :: r.2)
  | some t :: rest, i, off =>
      let r := stage_tensors base buf rest (i + 1) (off + t.nbytes)
      ({ idx := i, orig_data := t.data, orig_buffer := t.buffer } :: r.1,
       some { data := base + Int.ofNat off, buffer := buf, nbytes := t.nbytes } :: r.2)

/-- Write `d`/`b` into the `data`/`buffer` fields of the tensor node at
position `i` (a null field or an out-of-range position is left unchanged;
unreachable when restoring pointers saved from the same layer). -/
def set_tensor_ptr : List (Option ggml_tensor) → Nat → Int → Int → List (Option ggml_tensor)
  | [], _, _, _ => []
  | x :: rest, 0, d, b =>
      (match x with
       | none => none
       | some t => some { t with data := d, buffer := b }) :: rest
  | x :: rest, i + 1, d, b => x :: set_tensor_ptr rest i d b

/-- The restore loop of `swap_layer_to_cpu`: for each saved triple, write the
original `data` and `buffer` back through the stored node identity. -/
def restore_ptrs (saved : List llama_tensor_saved_ptr) (layer : llama_layer) : llama_layer :=
  saved.foldl (fun l sp => set_tensor_ptr l sp.idx sp.orig_data sp.orig_buffer) layer

/-- `swap_layer_to_gpu(il, layer)` acting on the layer's entry and tensors:
no-op when `tier == GPU` or `staging_slot >= 0`; otherwise stages every
non-null tensor into `staging_gpu_buffer[active_slot]` and records the saved
pointers in the entry. -/
def swap_layer_to_gpu (w : llama_layer_window) (entry : llama_layer_window_entry)
    (layer : llama_layer) : llama_layer_window_entry × llama_layer :=
  if entry.tier = llama_layer_tier.GPU then (entry, layer)
  else if 0 ≤ entry.staging_slot then (entry, layer)
  else
    let slot := w.active_slot
    let r := stage_tensors (w.staging_gpu_base slot) (w.staging_gpu_buf slot) layer 0 0
    ({ entry with staging_slot := Int.ofNat slot, saved_ptrs := r.1 }, r.2)

/-- `swap_layer_to_cpu(il, layer)` acting on the layer's entry and tensors:
no-op when `tier == GPU` or `staging_slot < 0`; otherwise restores every saved
pointer triple, clears the saved list and resets `staging_slot` to `-1`. -/
def swap_layer_to_cpu (entry : llama_layer_window_entry) (layer : llama_layer) :
    llama_layer_window_entry × llama_layer :=
  if entry.tier = llama_layer_tier.GPU then (entry, layer)
  else if entry.staging_slot < 0 then (entry, layer)
  else
    ({ entry with staging_slot := -1, saved_ptrs := [] },
     restore_ptrs entry.saved_ptrs layer)

/-- One `swap_layer_to_gpu`-then-`swap_layer_to_cpu` cycle on a layer. -/
def swap_cycle (w : llama_layer_window) (p : llama_layer_window_entry × llama_layer) :
    llama_layer_window_entry × llama_layer :=
  let q := swap_layer_to_gpu w p.1 p.2
  swap_layer_to_cpu q.1 q.2

end llama_layer_window

/-! ## Disk tier CPU cache (`llama_layer_window::disk_io`, src/llama-layer-window.cpp) -/

/-- `cpu_cache_entry`: layer index, heap buffer address, byte size, LRU tag. -/
structure cpu_cache_entry where
  il : Int
  data : Int
  size : Nat
  last_access : Nat
deriving Repr, DecidableEq

namespace disk_io

/-- Total byte size of the CPU cache (`total` in `evict_lru`). -/
def total_size (cache : List cpu_cache_entry) : Nat :=
  (cache.map (fun e => e.size)).sum

/-- The eviction loop of `evict_lru`: while the total exceeds the budget and
the cache is non-empty, free the front (oldest) entry.  The source keeps a
running total; recomputing it on the remaining list is equivalent. -/
def evict_loop (budget : Nat) : List cpu_cache_entry → List cpu_cache_entry
  | [] => []
  | e :: rest =>
      if budget < total_size (e :: rest) then evict_loop budget rest
      else e :: rest

/-- The postcondition of `std::sort(cpu_cache.begin(), cpu_cache.end(), cmp)`
with comparator `a.last_access < b.last_access`: the result is some
permutation of the input in which no entry is followed by one with a smaller
`last_access`.  `std::sort` is not stable, so the order among entries with
equal `last_access` is unspecified: EVERY list satisfying this predicate is a
permitted outcome, and the theorems below quantify over the outcome instead
of fixing one sorting algorithm. -/
def sorted_by_access (cache sorted : List cpu_cache_entry) : Prop :=
  sorted.Perm cache ∧ sorted.Pairwise (fun a b => a.last_access ≤ b.last_access)

instance (cache sorted : List cpu_cache_entry) : Decidable (sorted_by_access cache sorted) := by
  unfold sorted_by_access
  infer_instance

/-- `evict_lru()` as a function of the `std::sort` outcome: the source returns
immediately on an empty cache, otherwise sorts `cpu_cache` in place and
evicts from the front (oldest) until the total is within `cpu_cache_budget`.
`sorted` is the in-place sorting result, constrained by `sorted_by_access
cache sorted` in the theorems (the source's `std::sort` guarantees nothing
more). -/
def evict_lru (budget : Nat) (cache sorted : List cpu_cache_entry) : List cpu_cache_entry :=
  if cache.isEmpty then cache
  else evict_loop budget sorted

end disk_io

/-! ## Helper lemmas on `List.getD` / `List.set` -/

theorem list_getD_set_self (l : List Nat) (i x : Nat) (h : i < l.length) :
    (l.set i x).getD i 0 = x := by
  simp [List.getD_eq_getElem?_getD, List.getElem?_set_self h]

theorem list_getD_set_ne (l : List Nat) (x : Nat) {i j : Nat} (h : i ≠ j) :
    (l.set i x).getD j 0 = l.getD j 0 := by
  simp [List.getD_eq_getElem?_getD, List.getElem?_set_ne h]

/-! ## The allocator free-list invariant -/

namespace llama_block_allocator

/-- The free-list invariant of the allocator: `ref_count` has one entry per
block, the free list holds no duplicates, and a block's ref count is zero
exactly when the block is on the free list. -/
def Inv (a : llama_block_allocator) : Prop :=
  a.ref_count.length = a.num_blocks ∧ a.free_list.Nodup ∧
  ∀ b, b < a.num_blocks → (a.ref_count.getD b 0 = 0 ↔ b ∈ a.free_list)

instance (a : llama_block_allocator) : Decidable a.Inv := by
  unfold Inv
  infer_instance

theorem allocate_eq (a : llama_block_allocator) (hd : Nat) (rest : List Nat)
    (hfl : a.free_list = hd :: rest) :
    a.allocate = (hd, { a with free_list := rest, ref_count := a.ref_count.set hd 1 }) := by
  unfold allocate
  rw [hfl]

theorem free_block_eq_of_zero (a : llama_block_allocator) (b : Nat)
    (h0 : a.ref_count.getD b 0 - 1 = 0) :
    a.free_block b = { a with ref_count := a.ref_count.set b (a.ref_count.getD b 0 - 1),
                              free_list := b :: a.free_list } := by
  unfold free_block
  rw [if_pos h0]

theorem free_block_eq_of_pos (a : llama_block_allocator) (b : Nat)
    (h0 : a.ref_count.getD b 0 - 1 ≠ 0) :
    a.free_block b = { a with ref_count := a.ref_count.set b (a.ref_count.getD b 0 - 1) } := by
  unfold free_block
  rw [if_neg h0]

theorem Inv_mk_alloc (total_cells blk_size : Nat) : (mk_alloc total_cells blk_size).Inv := by
  refine ⟨by simp [mk_alloc], by simp [mk_alloc, List.nodup_range], fun b hb => ?_⟩
  simp only [mk_alloc] at hb ⊢
  simp [List.getD_eq_getElem?_getD, List.getElem?_replicate, List.mem_range, hb]

theorem Inv_allocate (a : llama_block_allocator) (h : a.Inv) (hne : a.free_list ≠ []) :
    a.allocate.2.Inv := by
  obtain ⟨hlen, hnd, hiff⟩ := h
  match hfl : a.free_list with
  | [] => exact absurd hfl hne
  | hd :: rest =>
    rw [allocate_eq a hd rest hfl]
    rw [hfl] at hnd
    refine ⟨by simpa using hlen, hnd.of_cons, fun b hb => ?_⟩
    simp only at hb ⊢
    by_cases hbh : b = hd
    · subst hbh
      rw [list_getD_set_self _ _ _ (hlen ▸ hb)]
      simpa using (List.nodup_cons.mp hnd).1
    · rw [list_getD_set_ne _ _ (fun hh => hbh hh.symm)]
      rw [hiff b hb, hfl]
      simp [hbh]

theorem Inv_free_block (a : llama_block_allocator) (b : Nat) (h : a.Inv)
    (hb : b < a.num_blocks) (hpos : 0 < a.ref_count.getD b 0) : (a.free_block b).Inv := by
  obtain ⟨hlen, hnd, hiff⟩ := h
  have hblen : b < a.ref_count.length := hlen ▸ hb
  have hnotmem : b ∉ a.free_list := fun hm => by
    have := (hiff b hb).mpr hm
    omega
  by_cases h0 : a.ref_count.getD b 0 - 1 = 0
  · rw [free_block_eq_of_zero a b h0]
    refine ⟨by simpa using hlen, List.nodup_cons.mpr ⟨hnotmem, hnd⟩, fun c hc => ?_⟩
    simp only at hc ⊢
    by_cases hcb : c = b
    · subst hcb
      rw [list_getD_set_self _ _ _ hblen]
      simp only [h0]
      simp
    · rw [list_getD_set_ne _ _ (fun hh => hcb hh.symm)]
      rw [hiff c hc]
      simp [hcb]
  · rw [free_block_eq_of_pos a b h0]
    refine ⟨by simpa using hlen, hnd, fun c hc => ?_⟩
    simp only at hc ⊢
    by_cases hcb : c = b
    · subst hcb
      rw [list_getD_set_self _ _ _ hblen]
      simp only [h0, false_iff]
      exact fun hm => hnotmem hm
    · rw [list_getD_set_ne _ _ (fun hh => hcb hh.symm)]
      exact hiff c hc

theorem Inv_inc_ref (a : llama_block_allocator) (b : Nat) (h : a.Inv)
    (hb : b < a.num_blocks) (hpos : 0 < a.ref_count.getD b 0) : (a.inc_ref b).Inv := by
  obtain ⟨hlen, hnd, hiff⟩ := h
  have hblen : b < a.ref_count.length := hlen ▸ hb
  have hnotmem : b ∉ a.free_list := fun hm => by
    have := (hiff b hb).mpr hm
    omega
  refine ⟨by simp [inc_ref, hlen], hnd, fun c hc => ?_⟩
  simp only [inc_ref] at hc ⊢
  by_cases hcb : c = b
  · subst hcb
    rw [list_getD_set_self _ _ _ hblen]
    simp only [Nat.add_eq_zero, false_iff, reduceCtorEq, and_false]
    exact fun hm => hnotmem hm
  · rw [list_getD_set_ne _ _ (fun hh => hcb hh.symm)]
    exact hiff c hc

end llama_block_allocator

/-! ## Claim theorems -/

open llama_block_allocator llama_block_table llama_layer_window disk_io

namespace scenario

/-- A block table with `block_size = 32` and one sequence mapped to blocks
`[5, 7]` (the spec's translation example). -/
def table57 : llama_block_table :=
  { block_size := 32, tables := fun s => if s = 0 then some [5, 7] else none }

end scenario

/-- C1: for every sequence present in the table and every position with
`pos / block_size` inside the sequence's block list,
`logical_to_physical(seq, pos) = mapping[seq][pos / block_size] * block_size
+ pos % block_size`; with `block_size = 32` and a sequence mapped to blocks
`[5, 7]` it yields 160 at pos 0, 191 at pos 31, 224 at pos 32, 242 at pos 50.
(`pos ≥ 0` holds by the `Nat` domain, matching the source's `pos >= 0`
assertion.) -/
theorem C1_logical_to_physical :
    (∀ (t : llama_block_table) (seq : Int) (pos : Nat) (blocks : List Nat)
       (h : t.tables seq = some blocks) (hlt : pos / t.block_size < blocks.length),
       t.logical_to_physical seq pos =
         blocks.get ⟨pos / t.block_size, hlt⟩ * t.block_size + pos % t.block_size) ∧
    scenario.table57.logical_to_physical 0 0 = 160 ∧
    scenario.table57.logical_to_physical 0 31 = 191 ∧
    scenario.table57.logical_to_physical 0 32 = 224 ∧
    scenario.table57.logical_to_physical 0 50 = 242 := by
  refine ⟨fun t seq pos blocks h hlt => ?_, by decide, by decide, by decide, by decide⟩
  simp only [logical_to_physical, h]
  rw [List.getD_eq_getElem _ _ hlt]
  rfl

/-- C1 witness: the general formula instantiated at the `[5, 7]` table,
sequence 0, position 50. -/
theorem C1_logical_to_physical_witness :
    scenario.table57.logical_to_physical 0 50 =
      List.get [5, 7] ⟨50 / scenario.table57.block_size, by decide⟩ *
        scenario.table57.block_size + 50 % scenario.table57.block_size :=
  C1_logical_to_physical.1 scenario.table57 0 50 [5, 7] (by decide) (by decide)

/-- C2: the invariant "`ref_count[b] = 0` iff `b` is on the free list, and the
free list has no duplicate entries" holds after construction and is preserved
by `allocate` (under a non-empty free list), `free_block` and `inc_ref` (under
`b < num_blocks` and `ref_count[b] > 0`, the source's asserted
preconditions). -/
theorem C2_allocator_invariant :
    (∀ total_cells blk_size, (mk_alloc total_cells blk_size).Inv) ∧
    (∀ a : llama_block_allocator, a.Inv → a.free_list ≠ [] → a.allocate.2.Inv) ∧
    (∀ (a : llama_block_allocator) (b : Nat), a.Inv → b < a.num_blocks →
       0 < a.ref_count.getD b 0 → (a.free_block b).Inv) ∧
    (∀ (a : llama_block_allocator) (b : Nat), a.Inv → b < a.num_blocks →
       0 < a.ref_count.getD b 0 → (a.inc_ref b).Inv) :=
  ⟨Inv_mk_alloc, Inv_allocate, Inv_free_block, Inv_inc_ref⟩

/-- C2 witness: the invariant clauses instantiated on the `(128, 32)`
allocator and the block returned by its first `allocate`. -/
theorem C2_allocator_invariant_witness :
    (mk_alloc 128 32).Inv ∧ (mk_alloc 128 32).allocate.2.Inv ∧
    ((mk_alloc 128 32).allocate.2.free_block 0).Inv ∧
    ((mk_alloc 128 32).allocate.2.inc_ref 0).Inv :=
  ⟨C2_allocator_invariant.1 128 32,
   C2_allocator_invariant.2.1 _ (by decide) (by decide),
   C2_allocator_invariant.2.2.1 _ 0 (by decide) (by decide) (by decide),
   C2_allocator_invariant.2.2.2 _ 0 (by decide) (by decide) (by decide)⟩

/-- C3: the free list is a LIFO stack.  Concretely: the `(128, 32)` allocator
has 4 free blocks, four `allocate()` calls return 0, 1, 2, 3 in order, and
after `free_block(2)` the next `allocate()` returns 2.  In general, from any
state whose popped block is a valid index, allocating, freeing that block
(its ref count 1 from `allocate` drops to zero) and allocating again returns
the same block id. -/
theorem C3_allocator_lifo :
    (scenario.a0.num_free = 4 ∧
     scenario.p1.1 = 0 ∧ scenario.p2.1 = 1 ∧ scenario.p3.1 = 2 ∧ scenario.p4.1 = 3 ∧
     scenario.a_freed.allocate.1 = 2) ∧
    (∀ (a : llama_block_allocator) (b : Nat) (rest : List Nat),
      a.free_list = b :: rest → b < a.ref_count.length →
      ((a.allocate.2.free_block a.allocate.1).allocate).1 = a.allocate.1) := by
  refine ⟨by decide, fun a b rest hfl hlen => ?_⟩
  rw [allocate_eq a b rest hfl]
  have hget : ({ a with free_list := rest, ref_count := a.ref_count.set b 1 }
      : llama_block_allocator).ref_count.getD b 0 = 1 :=
    list_getD_set_self _ _ _ hlen
  have h0 : ({ a with free_list := rest, ref_count := a.ref_count.set b 1 }
      : llama_block_allocator).ref_count.getD b 0 - 1 = 0 := by
    rw [hget]
  rw [free_block_eq_of_zero _ b h0]
  rw [allocate_eq _ b rest rfl]

/-- C3 witness: the general LIFO round-trip instantiated on the state reached
after `free_block(2)`, whose free list is `[2]`. -/
theorem C3_allocator_lifo_witness :
    ((scenario.a_freed.allocate.2.free_block scenario.a_freed.allocate.1).allocate).1 =
      scenario.a_freed.allocate.1 :=
  C3_allocator_lifo.2 scenario.a_freed 2 [] (by decide) (by decide)

/-! ## Helper lemmas: `share`, `inc_ref` folds, `logical_to_physical` -/

theorem logical_to_physical_of_tables (t : llama_block_table) (seq : Int) (blocks : List Nat)
    (h : t.tables seq = some blocks) (pos : Nat) :
    t.logical_to_physical seq pos =
      blocks.getD (pos / t.block_size) 0 * t.block_size + pos % t.block_size := by
  simp only [logical_to_physical, h]

theorem foldl_inc_ref_free_list (l : List Nat) :
    ∀ a : llama_block_allocator, (l.foldl inc_ref a).free_list = a.free_list := by
  induction l with
  | nil => intro a; rfl
  | cons x t ih =>
      intro a
      rw [List.foldl_cons, ih]
      rfl

theorem foldl_inc_ref_getD (l : List Nat) :
    ∀ (a : llama_block_allocator) (b : Nat), (∀ x ∈ l, x < a.ref_count.length) →
      (l.foldl inc_ref a).ref_count.getD b 0 = a.ref_count.getD b 0 + l.count b := by
  induction l with
  | nil => intro a b _; simp
  | cons x t ih =>
      intro a b hl
      have hx : x < a.ref_count.length := hl x (List.mem_cons_self x t)
      have hlen : (a.inc_ref x).ref_count.length = a.ref_count.length := by
        simp [inc_ref]
      rw [List.foldl_cons,
        ih (a.inc_ref x) b (fun y hy => by rw [hlen]; exact hl y (List.mem_cons_of_mem x hy)),
        List.count_cons]
      by_cases hxb : x = b
      · subst hxb
        have hg : (a.inc_ref x).ref_count.getD x 0 = a.ref_count.getD x 0 + 1 := by
          simp only [inc_ref]
          exact list_getD_set_self _ _ _ hx
        rw [hg, if_pos (beq_self_eq_true x)]
        omega
      · have hg : (a.inc_ref x).ref_count.getD b 0 = a.ref_count.getD b 0 := by
          simp only [inc_ref]
          exact list_getD_set_ne _ _ hxb
        rw [hg, if_neg (by simp [hxb])]
        omega

namespace scenario

/-- An empty block table with `block_size = 32`. -/
def table_empty : llama_block_table := { block_size := 32, tables := fun _ => none }

/-- Allocator state reached by `mk_alloc 64 32; allocate(); inc_ref(0)`:
`ref_count = [2, 0]`. -/
def a_dup : llama_block_allocator :=
  ((llama_block_allocator.mk_alloc 64 32).allocate.2).inc_ref 0

/-- Table in which sequence 0 holds block 0 twice (`append_block(0, 0)` twice,
a state the public interface admits). -/
def t_dup : llama_block_table := (table_empty.append_block 0 0).append_block 0 0

/-- Table with sequence 0 ↦ `[0]` and sequence 1 ↦ `[1]`. -/
def t_two : llama_block_table := (table_empty.append_block 0 0).append_block 1 1

/-- Allocator state with both blocks of `mk_alloc 64 32` allocated:
`ref_count = [1, 1]`. -/
def a_two : llama_block_allocator :=
  (llama_block_allocator.mk_alloc 64 32).allocate.2.allocate.2

end scenario

/-- C4 counterexample: in the table state where sequence 0 (the `src`) is
mapped to `[0, 0]` and sequence 1 (the `dst`) is absent, with
`ref_count[0] = 2`, `share(0, 1)` raises `ref_count[0]` to 4 — an increment
of 2, not of "exactly one" as the claim states for every block of the list. -/
theorem C4_share_inc_counterexample :
    scenario.t_dup.tables 0 = some [0, 0] ∧
    scenario.t_dup.tables 1 = none ∧
    scenario.a_dup.ref_count.getD 0 0 = 2 ∧
    (scenario.t_dup.share 0 1 scenario.a_dup).2.ref_count.getD 0 0 = 4 ∧
    ¬ (scenario.t_dup.share 0 1 scenario.a_dup).2.ref_count.getD 0 0 =
        scenario.a_dup.ref_count.getD 0 0 + 1 := by
  decide

/-- C4 (amended): for every table state where `src` exists (with in-range
blocks) and `dst` does not, `share(src, dst, alloc)` copies `mapping[src]`
into `mapping[dst]` and increments the ref count of each block by its number
of occurrences in `mapping[src]` — exactly one for each distinct block —
and afterwards `logical_to_physical(src, pos) = logical_to_physical(dst, pos)`
for every `pos`. -/
theorem C4_share_copies_and_increments :
    ∀ (t : llama_block_table) (src dst : Int) (alloc : llama_block_allocator)
      (blocks : List Nat),
      t.tables src = some blocks → t.tables dst = none →
      (∀ x ∈ blocks, x < alloc.ref_count.length) →
      (t.share src dst alloc).1.tables dst = some blocks ∧
      (∀ b : Nat, (t.share src dst alloc).2.ref_count.getD b 0 =
          alloc.ref_count.getD b 0 + blocks.count b) ∧
      (∀ pos : Nat, (t.share src dst alloc).1.logical_to_physical src pos =
          (t.share src dst alloc).1.logical_to_physical dst pos) := by
  intro t src dst alloc blocks hsrc hdst hran
  have hne : src ≠ dst := by
    intro he
    rw [he, hdst] at hsrc
    exact Option.noConfusion hsrc
  simp only [share, hsrc]
  refine ⟨by simp, fun b => foldl_inc_ref_getD blocks alloc b hran, fun pos => ?_⟩
  have h1 : ((fun s => if s = dst then some blocks else t.tables s) : Int → Option (List Nat))
      src = some blocks := by
    simp [hne, hsrc]
  have h2 : ((fun s => if s = dst then some blocks else t.tables s) : Int → Option (List Nat))
      dst = some blocks := by
    simp
  rw [logical_to_physical_of_tables _ src blocks h1, logical_to_physical_of_tables _ dst blocks h2]

/-- C4 witness: the amended statement instantiated on the two-block allocator
with sequence 0 ↦ `[0]` shared to the absent sequence 2. -/
theorem C4_share_copies_and_increments_witness :
    (scenario.t_two.share 0 2 scenario.a_two).1.tables 2 = some [0] ∧
    (∀ b : Nat, (scenario.t_two.share 0 2 scenario.a_two).2.ref_count.getD b 0 =
        scenario.a_two.ref_count.getD b 0 + List.count b [0]) ∧
    (∀ pos : Nat, (scenario.t_two.share 0 2 scenario.a_two).1.logical_to_physical 0 pos =
        (scenario.t_two.share 0 2 scenario.a_two).1.logical_to_physical 2 pos) :=
  C4_share_copies_and_increments scenario.t_two 0 2 scenario.a_two [0]
    (by decide) (by decide) (by decide)

/-- C10: when `share(src, dst, alloc)` is called while `dst` already has a
mapping, `dst`'s mapping is overwritten with a copy of `src`'s list and only
the blocks of `src`'s list get their ref counts incremented (by their number
of occurrences); every block outside `src`'s list — in particular each of
`dst`'s previous blocks not shared with `src` — keeps its ref count, no ref
count is ever decremented, and the free list is untouched, so the references
previously held by `dst` are leaked. -/
theorem C10_share_overwrite_leaks :
    ∀ (t : llama_block_table) (src dst : Int) (alloc : llama_block_allocator)
      (blocks old_dst : List Nat),
      t.tables src = some blocks → t.tables dst = some old_dst →
      (∀ x ∈ blocks, x < alloc.ref_count.length) →
      (t.share src dst alloc).1.tables dst = some blocks ∧
      (∀ b : Nat, b ∉ blocks →
        (t.share src dst alloc).2.ref_count.getD b 0 = alloc.ref_count.getD b 0) ∧
      (∀ b : Nat, alloc.ref_count.getD b 0 ≤ (t.share src dst alloc).2.ref_count.getD b 0) ∧
      (t.share src dst alloc).2.free_list = alloc.free_list := by
  intro t src dst alloc blocks old_dst hsrc hdst hran
  simp only [share, hsrc]
  refine ⟨by simp, fun b hb => ?_, fun b => ?_, foldl_inc_ref_free_list blocks alloc⟩
  · rw [foldl_inc_ref_getD blocks alloc b hran]
    rw [List.count_eq_zero.mpr hb]
    omega
  · rw [foldl_inc_ref_getD blocks alloc b hran]
    omega

/-- C10 witness: sequence 0 ↦ `[0]` shared onto the existing sequence 1 ↦
`[1]` with `ref_count = [1, 1]`: block 1's ref count stays 1 although its
only surviving owner is overwritten. -/
theorem C10_share_overwrite_leaks_witness :
    (scenario.t_two.share 0 1 scenario.a_two).1.tables 1 = some [0] ∧
    (∀ b : Nat, b ∉ [0] →
      (scenario.t_two.share 0 1 scenario.a_two).2.ref_count.getD b 0 =
        scenario.a_two.ref_count.getD b 0) ∧
    (∀ b : Nat, scenario.a_two.ref_count.getD b 0 ≤
      (scenario.t_two.share 0 1 scenario.a_two).2.ref_count.getD b 0) ∧
    (scenario.t_two.share 0 1 scenario.a_two).2.free_list = scenario.a_two.free_list :=
  C10_share_overwrite_leaks scenario.t_two 0 1 scenario.a_two [0] [1]
    (by decide) (by decide) (by decide)

namespace scenario

/-- The allocator constructed with `(256, 32)` (8 blocks) after four
`allocate()` calls returning 0, 1, 2, 3. -/
def a8 : llama_block_allocator :=
  (llama_block_allocator.mk_alloc 256 32).allocate.2.allocate.2.allocate.2.allocate.2

/-- Table with sequence 0 holding the four allocated blocks `[0, 1, 2, 3]`. -/
def t4 : llama_block_table :=
  (((table_empty.append_block 0 0).append_block 0 1).append_block 0 2).append_block 0 3

end scenario

/-- C5: for every existing sequence, `remove_blocks_range(seq, pos_start,
pos_end, alloc)` frees — via `free_block`, in increasing order — exactly the
blocks whose logical indices lie in `[⌊pos_start/block_size⌋,
⌈pos_end/block_size⌉)` clamped to the sequence length, and closes the gap by
shifting the later blocks left; concretely, on a sequence holding
`[b0, b1, b2, b3]` with `block_size = 32`, `remove_blocks_range(s, 32, 96)`
leaves the mapping `[b0, b3]` with `b1` and `b2` back on the free list. -/
theorem C5_remove_blocks_range :
    (∀ (t : llama_block_table) (seq : Int) (pos_start pos_end : Nat)
       (alloc : llama_block_allocator) (blocks : List Nat),
       t.tables seq = some blocks → 0 < t.block_size → pos_start ≤ pos_end →
       (t.remove_blocks_range seq pos_start pos_end alloc).1.tables seq =
         some (blocks.take (pos_start / t.block_size) ++
           blocks.drop (min (pos_end ⌈/⌉ t.block_size) blocks.length)) ∧
       (t.remove_blocks_range seq pos_start pos_end alloc).2 =
         ((blocks.drop (pos_start / t.block_size)).take
           (min (pos_end ⌈/⌉ t.block_size) blocks.length - pos_start / t.block_size)).foldl
           llama_block_allocator.free_block alloc) ∧
    ((scenario.t4.remove_blocks_range 0 32 96 scenario.a8).1.tables 0 = some [0, 3] ∧
     1 ∈ (scenario.t4.remove_blocks_range 0 32 96 scenario.a8).2.free_list ∧
     2 ∈ (scenario.t4.remove_blocks_range 0 32 96 scenario.a8).2.free_list ∧
     (scenario.t4.remove_blocks_range 0 32 96 scenario.a8).2.ref_count.getD 1 0 = 0 ∧
     (scenario.t4.remove_blocks_range 0 32 96 scenario.a8).2.ref_count.getD 2 0 = 0) := by
  refine ⟨fun t seq pos_start pos_end alloc blocks h hbs hse => ?_, by decide⟩
  rw [Nat.ceilDiv_eq_add_pred_div]
  simp only [remove_blocks_range, h]
  set lo := pos_start / t.block_size with hlo
  set hi := min ((pos_end + t.block_size - 1) / t.block_size) blocks.length with hhi
  have hmono : lo ≤ (pos_end + t.block_size - 1) / t.block_size :=
    Nat.div_le_div_right (by omega)
  by_cases hcase : lo ≥ hi
  · rw [if_pos hcase]
    have htd : blocks.take lo ++ blocks.drop hi = blocks := by
      rcases Nat.le_total ((pos_end + t.block_size - 1) / t.block_size) blocks.length with
        hmin | hmin
      · have : hi = (pos_end + t.block_size - 1) / t.block_size := min_eq_left hmin
        have hlh : lo = hi := le_antisymm (this ▸ hmono) hcase
        rw [← hlh, List.take_append_drop]
      · have hhilen : hi = blocks.length := min_eq_right hmin
        rw [hhilen, List.drop_eq_nil_of_le (le_refl _), List.append_nil,
          List.take_of_length_le (hhilen ▸ hcase)]
    have hempty : hi - lo = 0 := by omega
    rw [hempty]
    simp [htd, h]
  · rw [if_neg hcase]
    simp

/-- C5 witness: the range-removal characterisation instantiated on the
four-block sequence with `remove_blocks_range(0, 32, 96)`. -/
theorem C5_remove_blocks_range_witness :
    (scenario.t4.remove_blocks_range 0 32 96 scenario.a8).1.tables 0 =
      some ([0, 1, 2, 3].take (32 / scenario.t4.block_size) ++
        [0, 1, 2, 3].drop (min (96 ⌈/⌉ scenario.t4.block_size) [0, 1, 2, 3].length)) ∧
    (scenario.t4.remove_blocks_range 0 32 96 scenario.a8).2 =
      (([0, 1, 2, 3].drop (32 / scenario.t4.block_size)).take
        (min (96 ⌈/⌉ scenario.t4.block_size) [0, 1, 2, 3].length -
          32 / scenario.t4.block_size)).foldl
        llama_block_allocator.free_block scenario.a8 :=
  C5_remove_blocks_range.1 scenario.t4 0 32 96 scenario.a8 [0, 1, 2, 3]
    (by decide) (by decide) (by decide)

/-! ## Closed form of `get_window_range` when windowing is enabled -/

theorem get_window_range_closed (w : llama_layer_window) (il : Int)
    (h : w.enabled = true) :
    w.get_window_range il =
      (max 0 (min (il - w.n_window / 2) (w.n_layer - w.n_window)),
       max 0 (min (il - w.n_window / 2) (w.n_layer - w.n_window)) + w.n_window) := by
  have he : 0 < w.n_window ∧ w.n_window < w.n_layer := by
    simpa [llama_layer_window.enabled] using h
  obtain ⟨h1, h2⟩ := he
  simp only [llama_layer_window.get_window_range]
  rw [if_neg (by simp [h])]
  by_cases hA : il - w.n_window / 2 < 0
  · rw [if_pos hA]
    rw [if_neg (by simp only; omega)]
    simp only [Prod.mk.injEq]
    omega
  · rw [if_neg hA]
    by_cases hB : il - w.n_window / 2 + w.n_window > w.n_layer
    · rw [if_pos (by simpa using hB)]
      simp only [Prod.mk.injEq]
      omega
    · rw [if_neg (by simpa using hB)]
      simp only [Prod.mk.injEq]
      omega

namespace scenario

/-- A layer window with `n_layer = 40` and `n_window = 8`. -/
def w40 : llama_layer_window :=
  { n_layer := 40, n_window := 8, active_slot := 0,
    staging_gpu_base := fun _ => 0, staging_gpu_buf := fun _ => 0 }

end scenario

/-- C7: `get_window_range(current_il)` returns `[0, n_layer)` whenever
windowing is disabled; when enabled it returns a half-open interval of length
`n_window` centred on `current_il` (start `current_il - n_window/2`) and
clamped into `[0, n_layer)`, i.e. with start `clamp(current_il - n_window/2,
0, n_layer - n_window)`; with `n_layer = 40`, `n_window = 8` it returns
`[16, 24)` for layer 20, `[0, 8)` for layer 2, `[32, 40)` for layer 39. -/
theorem C7_get_window_range :
    (∀ (w : llama_layer_window) (current_il : Int), ¬ w.enabled = true →
      w.get_window_range current_il = (0, w.n_layer)) ∧
    (∀ (w : llama_layer_window) (current_il : Int), w.enabled = true →
      w.get_window_range current_il =
        (max 0 (min (current_il - w.n_window / 2) (w.n_layer - w.n_window)),
         max 0 (min (current_il - w.n_window / 2) (w.n_layer - w.n_window)) + w.n_window) ∧
      0 ≤ (w.get_window_range current_il).1 ∧
      (w.get_window_range current_il).2 ≤ w.n_layer ∧
      (w.get_window_range current_il).2 =
        (w.get_window_range current_il).1 + w.n_window) ∧
    (scenario.w40.get_window_range 20 = (16, 24) ∧
     scenario.w40.get_window_range 2 = (0, 8) ∧
     scenario.w40.get_window_range 39 = (32, 40)) := by
  refine ⟨fun w il h => ?_, fun w il h => ?_, by decide, by decide, by decide⟩
  · simp only [llama_layer_window.get_window_range]
    rw [if_pos (by simp [h])]
  · have he : 0 < w.n_window ∧ w.n_window < w.n_layer := by
      simpa [llama_layer_window.enabled] using h
    have heq := get_window_range_closed w il h
    refine ⟨heq, ?_, ?_, ?_⟩ <;> rw [heq] <;> simp only <;> omega

/-- C7 witness: the enabled-case closed form instantiated at `n_layer = 40`,
`n_window = 8`, `current_il = 39`. -/
theorem C7_get_window_range_witness :
    scenario.w40.get_window_range 39 =
      (max 0 (min (39 - scenario.w40.n_window / 2)
        (scenario.w40.n_layer - scenario.w40.n_window)),
       max 0 (min (39 - scenario.w40.n_window / 2)
        (scenario.w40.n_layer - scenario.w40.n_window)) + scenario.w40.n_window) ∧
    0 ≤ (scenario.w40.get_window_range 39).1 ∧
    (scenario.w40.get_window_range 39).2 ≤ scenario.w40.n_layer ∧
    (scenario.w40.get_window_range 39).2 =
      (scenario.w40.get_window_range 39).1 + scenario.w40.n_window :=
  C7_get_window_range.2.1 scenario.w40 39 (by decide)

/-! ## Lemmas on the eviction loop -/

theorem total_size_evict_loop (budget : Nat) :
    ∀ cache : List cpu_cache_entry, disk_io.total_size (disk_io.evict_loop budget cache) ≤ budget := by
  intro cache
  induction cache with
  | nil => simp [disk_io.evict_loop, disk_io.total_size]
  | cons e rest ih =>
      rw [disk_io.evict_loop]
      by_cases hb : budget < disk_io.total_size (e :: rest)
      · rw [if_pos hb]
        exact ih
      · rw [if_neg hb]
        omega

theorem evict_loop_suffix (budget : Nat) :
    ∀ cache : List cpu_cache_entry, (disk_io.evict_loop budget cache) <:+ cache := by
  intro cache
  induction cache with
  | nil => exact List.suffix_refl _
  | cons e rest ih =>
      rw [disk_io.evict_loop]
      by_cases hb : budget < disk_io.total_size (e :: rest)
      · rw [if_pos hb]
        exact ih.trans (List.suffix_cons e rest)
      · rw [if_neg hb]

/-- Two permutations of the same entries that are both sorted by
`last_access` coincide when the `last_access` tags are pairwise distinct:
with no ties, the `std::sort` outcome is uniquely determined. -/
theorem sorted_perm_eq :
    ∀ (l1 l2 : List cpu_cache_entry), l1.Perm l2 →
      (l1.map (fun e => e.last_access)).Nodup →
      l1.Pairwise (fun a b => a.last_access ≤ b.last_access) →
      l2.Pairwise (fun a b => a.last_access ≤ b.last_access) →
      l1 = l2 := by
  intro l1
  induction l1 with
  | nil =>
      intro l2 hp _ _ _
      exact (hp.symm.eq_nil).symm
  | cons a t1 ih =>
      intro l2 hp hnd hs1 hs2
      cases l2 with
      | nil =>
          have := hp.length_eq
          simp at this
      | cons b t2 =>
          have hab : a = b := by
            by_contra hne
            have hbmem : b ∈ a :: t1 := hp.symm.subset (List.mem_cons_self b t2)
            have hbt1 : b ∈ t1 := by
              rcases List.mem_cons.mp hbmem with h | h
              · exact absurd h.symm hne
              · exact h
            have hamem : a ∈ b :: t2 := hp.subset (List.mem_cons_self a t1)
            have hat2 : a ∈ t2 := by
              rcases List.mem_cons.mp hamem with h | h
              · exact absurd h hne
              · exact h
            have h1 : a.last_access ≤ b.last_access := (List.pairwise_cons.mp hs1).1 b hbt1
            have h2 : b.last_access ≤ a.last_access := (List.pairwise_cons.mp hs2).1 a hat2
            have hmem : a.last_access ∈ t1.map (fun e => e.last_access) :=
              List.mem_map.mpr ⟨b, hbt1, by omega⟩
            rw [List.map_cons] at hnd
            exact (List.nodup_cons.mp hnd).1 hmem
          subst hab
          rw [List.map_cons] at hnd
          rw [ih t2 hp.cons_inv (List.nodup_cons.mp hnd).2 hs1.of_cons hs2.of_cons]

namespace scenario

/-- First-inserted cache entry of a tying pair (`last_access = 7`). -/
def ce0 : cpu_cache_entry := { il := 0, data := 10, size := 5, last_access := 7 }

/-- Second-inserted cache entry tying with `ce0` on `last_access`. -/
def ce1 : cpu_cache_entry := { il := 1, data := 20, size := 5, last_access := 7 }

/-- Cache entries with pairwise distinct `last_access` tags. -/
def cd1 : cpu_cache_entry := { il := 0, data := 100, size := 10, last_access := 5 }

def cd2 : cpu_cache_entry := { il := 1, data := 200, size := 20, last_access := 2 }

def cd3 : cpu_cache_entry := { il := 2, data := 300, size := 30, last_access := 9 }

end scenario

/-- C8 counterexample to the tie-break clause: the source sorts with
`std::sort`, which is not stable, so on the cache `[ce0, ce1]` — two entries
tying on `last_access`, `ce0` inserted first — both `[ce0, ce1]` and
`[ce1, ce0]` are permitted sort outcomes; with budget 5 (each entry has size
5) the outcome `[ce1, ce0]` makes `evict_lru` free `ce1` first, leaving
`[ce0]`, while insertion-order tie-breaking requires `ce0` to be freed first,
leaving `[ce1]`.  The program therefore does not guarantee "breaking ties by
insertion order". -/
theorem C8_evict_lru_tiebreak_counterexample :
    disk_io.sorted_by_access [scenario.ce0, scenario.ce1] [scenario.ce1, scenario.ce0] ∧
    disk_io.sorted_by_access [scenario.ce0, scenario.ce1] [scenario.ce0, scenario.ce1] ∧
    disk_io.evict_lru 5 [scenario.ce0, scenario.ce1] [scenario.ce1, scenario.ce0] =
      [scenario.ce0] ∧
    disk_io.evict_lru 5 [scenario.ce0, scenario.ce1] [scenario.ce0, scenario.ce1] =
      [scenario.ce1] ∧
    ¬ ([scenario.ce0] : List cpu_cache_entry) = [scenario.ce1] := by
  decide

/-- C8 (amended): for every outcome the unstable `std::sort` may produce —
any ascending-`last_access` permutation of the cache entries — `evict_lru()`
frees entries from the oldest end of that order until the cached total is at
most `cpu_cache_budget`: afterwards the total is at most `cpu_cache_budget`
and the surviving entries are a suffix of the sorted order; the order among
entries with equal `last_access` is unspecified, but when the cache's
`last_access` tags are pairwise distinct there are no ties and the sorted
order — hence the eviction order — is uniquely determined. -/
theorem C8_evict_lru :
    ∀ (budget : Nat) (cache sorted : List cpu_cache_entry),
      disk_io.sorted_by_access cache sorted →
      disk_io.total_size (disk_io.evict_lru budget cache sorted) ≤ budget ∧
      disk_io.evict_lru budget cache sorted <:+ sorted ∧
      sorted.Pairwise (fun a b => a.last_access ≤ b.last_access) ∧
      ((cache.map (fun e => e.last_access)).Nodup →
        ∀ sorted2 : List cpu_cache_entry, disk_io.sorted_by_access cache sorted2 →
          sorted2 = sorted) := by
  intro budget cache sorted hs
  obtain ⟨hperm, hpw⟩ := hs
  refine ⟨?_, ?_, hpw, ?_⟩
  · by_cases hemp : cache.isEmpty
    · rw [disk_io.evict_lru, if_pos hemp, List.isEmpty_iff.mp hemp]
      simp [disk_io.total_size]
    · rw [disk_io.evict_lru, if_neg hemp]
      exact total_size_evict_loop budget sorted
  · by_cases hemp : cache.isEmpty
    · rw [disk_io.evict_lru, if_pos hemp, List.isEmpty_iff.mp hemp]
      exact List.nil_suffix
    · rw [disk_io.evict_lru, if_neg hemp]
      exact evict_loop_suffix budget sorted
  · intro hnd sorted2 hs2
    obtain ⟨hperm2, hpw2⟩ := hs2
    exact sorted_perm_eq sorted2 sorted (hperm2.trans hperm.symm)
      (((hperm2.map (fun e => e.last_access)).nodup_iff).mpr hnd) hpw2 hpw

/-- C8 witness: the amended statement instantiated on a three-entry cache
with distinct `last_access` tags (5, 2, 9), budget 35, and its unique sorted
order `[cd2, cd1, cd3]`. -/
theorem C8_evict_lru_witness :
    disk_io.total_size (disk_io.evict_lru 35 [scenario.cd1, scenario.cd2, scenario.cd3]
      [scenario.cd2, scenario.cd1, scenario.cd3]) ≤ 35 ∧
    disk_io.evict_lru 35 [scenario.cd1, scenario.cd2, scenario.cd3]
      [scenario.cd2, scenario.cd1, scenario.cd3] <:+
      [scenario.cd2, scenario.cd1, scenario.cd3] ∧
    ([scenario.cd2, scenario.cd1, scenario.cd3] : List cpu_cache_entry).Pairwise
      (fun a b => a.last_access ≤ b.last_access) ∧
    ((([scenario.cd1, scenario.cd2, scenario.cd3] : List cpu_cache_entry).map
        (fun e => e.last_access)).Nodup →
      ∀ sorted2 : List cpu_cache_entry,
        disk_io.sorted_by_access [scenario.cd1, scenario.cd2, scenario.cd3] sorted2 →
        sorted2 = [scenario.cd2, scenario.cd1, scenario.cd3]) :=
  C8_evict_lru 35 [scenario.cd1, scenario.cd2, scenario.cd3]
    [scenario.cd2, scenario.cd1, scenario.cd3] (by decide)

/-! ## Lemmas on staging and restoring tensor pointers -/

namespace llama_layer_window

theorem set_tensor_ptr_cons (x : Option ggml_tensor) (l : List (Option ggml_tensor))
    (i : Nat) (d b : Int) :
    set_tensor_ptr (x :: l) (i + 1) d b = x :: set_tensor_ptr l i d b := rfl

theorem restore_ptrs_cons (s : List llama_tensor_saved_ptr) :
    ∀ (x : Option ggml_tensor) (l : List (Option ggml_tensor)),
      (∀ sp ∈ s, 1 ≤ sp.idx) →
      restore_ptrs s (x :: l) =
        x :: restore_ptrs (s.map (fun sp => { sp with idx := sp.idx - 1 })) l := by
  induction s with
  | nil => intro x l _; rfl
  | cons sp rest ih =>
      intro x l hs
      have h1 : 1 ≤ sp.idx := hs sp (List.mem_cons_self _ _)
      obtain ⟨m, hm⟩ : ∃ m, sp.idx = m + 1 := ⟨sp.idx - 1, by omega⟩
      simp only [restore_ptrs, List.foldl_cons, List.map_cons]
      rw [hm, set_tensor_ptr_cons]
      have hrec := ih x (set_tensor_ptr l m sp.orig_data sp.orig_buffer)
        (fun q hq => hs q (List.mem_cons_of_mem _ hq))
      simp only [restore_ptrs] at hrec
      rw [hrec]
      simp

theorem stage_tensors_shift (base buf : Int) :
    ∀ (l : List (Option ggml_tensor)) (i off : Nat),
      (stage_tensors base buf l (i + 1) off).1 =
        (stage_tensors base buf l i off).1.map (fun sp => { sp with idx := sp.idx + 1 }) ∧
      (stage_tensors base buf l (i + 1) off).2 = (stage_tensors base buf l i off).2 := by
  intro l
  induction l with
  | nil => intro i off; exact ⟨rfl, rfl⟩
  | cons x rest ih =>
      intro i off
      cases x with
      | none =>
          simp only [stage_tensors, List.map_cons]
          exact ⟨(ih (i + 1) off).1, by rw [(ih (i + 1) off).2]⟩
      | some t =>
          simp only [stage_tensors, List.map_cons]
          refine ⟨?_, by rw [(ih (i + 1) (off + t.nbytes)).2]⟩
          rw [(ih (i + 1) (off + t.nbytes)).1]

theorem map_dec_inc (s : List llama_tensor_saved_ptr) :
    (s.map (fun sp => { sp with idx := sp.idx + 1 })).map
      (fun sp => { sp with idx := sp.idx - 1 }) = s := by
  induction s with
  | nil => rfl
  | cons sp rest ih => simp [ih]

theorem stage_tensors_idx_ge_one (base buf : Int) (l : List (Option ggml_tensor)) (off : Nat) :
    ∀ sp ∈ (stage_tensors base buf l 1 off).1, 1 ≤ sp.idx := by
  rw [(stage_tensors_shift base buf l 0 off).1]
  intro sp hsp
  simp only [List.mem_map] at hsp
  obtain ⟨q, _, hq⟩ := hsp
  subst hq
  simp

theorem restore_stage (base buf : Int) :
    ∀ (l : List (Option ggml_tensor)) (off : Nat),
      restore_ptrs (stage_tensors base buf l 0 off).1 (stage_tensors base buf l 0 off).2 = l := by
  intro l
  induction l with
  | nil => intro off; rfl
  | cons x rest ih =>
      intro off
      cases x with
      | none =>
          simp only [stage_tensors]
          rw [restore_ptrs_cons _ _ _ (stage_tensors_idx_ge_one base buf rest off)]
          rw [(stage_tensors_shift base buf rest 0 off).1,
            (stage_tensors_shift base buf rest 0 off).2, map_dec_inc]
          rw [ih off]
      | some t =>
          simp only [stage_tensors, restore_ptrs, List.foldl_cons]
          show restore_ptrs _ (some t :: (stage_tensors base buf rest 1 (off + t.nbytes)).2) = _
          rw [restore_ptrs_cons _ _ _ (stage_tensors_idx_ge_one base buf rest (off + t.nbytes))]
          rw [(stage_tensors_shift base buf rest 0 (off + t.nbytes)).1,
            (stage_tensors_shift base buf rest 0 (off + t.nbytes)).2, map_dec_inc]
          rw [ih (off + t.nbytes)]

end llama_layer_window

namespace llama_layer_window

/-- The shape of a layer's tensor-field list: which positions hold a (non-null)
tensor node.  This is the descriptor-identity skeleton: the node at position
`i` exists iff the shape is `true` there, and no operation below ever
reallocates or reorders nodes. -/
def tensor_shape (l : llama_layer) : List Bool :=
  l.map Option.isSome

theorem stage_tensors_shape (base buf : Int) :
    ∀ (l : List (Option ggml_tensor)) (i off : Nat),
      tensor_shape (stage_tensors base buf l i off).2 = tensor_shape l := by
  intro l
  induction l with
  | nil => intro i off; rfl
  | cons x rest ih =>
      intro i off
      cases x with
      | none =>
          simp only [stage_tensors, tensor_shape, List.map_cons]
          have := ih (i + 1) off
          simp only [tensor_shape] at this
          rw [this]
      | some t =>
          simp only [stage_tensors, tensor_shape, List.map_cons]
          have := ih (i + 1) (off + t.nbytes)
          simp only [tensor_shape] at this
          rw [this]
          rfl

theorem set_tensor_ptr_shape :
    ∀ (l : List (Option ggml_tensor)) (i : Nat) (d b : Int),
      tensor_shape (set_tensor_ptr l i d b) = tensor_shape l := by
  intro l
  induction l with
  | nil => intro i d b; rfl
  | cons x rest ih =>
      intro i d b
      cases i with
      | zero => cases x <;> rfl
      | succ m =>
          rw [set_tensor_ptr_cons]
          simp only [tensor_shape, List.map_cons]
          have := ih m d b
          simp only [tensor_shape] at this
          rw [this]

theorem restore_ptrs_shape :
    ∀ (s : List llama_tensor_saved_ptr) (l : llama_layer),
      tensor_shape (restore_ptrs s l) = tensor_shape l := by
  intro s
  induction s with
  | nil => intro l; rfl
  | cons sp rest ih =>
      intro l
      simp only [restore_ptrs, List.foldl_cons]
      have := ih (set_tensor_ptr l sp.idx sp.orig_data sp.orig_buffer)
      simp only [restore_ptrs] at this
      rw [this, set_tensor_ptr_shape]

theorem swap_gpu_noop_of_gpu (w : llama_layer_window) (e : llama_layer_window_entry)
    (l : llama_layer) (h : e.tier = llama_layer_tier.GPU) :
    w.swap_layer_to_gpu e l = (e, l) := by
  simp [swap_layer_to_gpu, h]

theorem swap_cpu_noop_of_gpu (e : llama_layer_window_entry) (l : llama_layer)
    (h : e.tier = llama_layer_tier.GPU) : swap_layer_to_cpu e l = (e, l) := by
  simp [swap_layer_to_cpu, h]

theorem swap_cycle_eq_of_cpu (w : llama_layer_window) (e : llama_layer_window_entry)
    (l : llama_layer) (htier : ¬ e.tier = llama_layer_tier.GPU) (h : e.staging_slot < 0) :
    w.swap_cycle (e, l) =
      ({ e with staging_slot := -1, saved_ptrs := [] }, l) := by
  simp only [swap_cycle, swap_layer_to_gpu, if_neg htier, if_neg (not_le.mpr h)]
  simp only [swap_layer_to_cpu, if_neg htier]
  rw [if_neg (by simp [Int.ofNat_nonneg, not_lt])]
  rw [restore_stage _ _ l 0]

theorem swap_cycle_layer_eq (w : llama_layer_window) (e : llama_layer_window_entry)
    (l : llama_layer) (h : e.staging_slot < 0) : (w.swap_cycle (e, l)).2 = l := by
  by_cases htier : e.tier = llama_layer_tier.GPU
  · have hg := swap_gpu_noop_of_gpu w e l htier
    simp [swap_cycle, hg, swap_cpu_noop_of_gpu e l htier]
  · rw [swap_cycle_eq_of_cpu w e l htier h]

theorem swap_cycle_fixed (w : llama_layer_window) (e : llama_layer_window_entry)
    (l : llama_layer) (h1 : e.staging_slot = -1) (h2 : e.saved_ptrs = []) :
    w.swap_cycle (e, l) = (e, l) := by
  by_cases htier : e.tier = llama_layer_tier.GPU
  · have hg := swap_gpu_noop_of_gpu w e l htier
    simp [swap_cycle, hg, swap_cpu_noop_of_gpu e l htier]
  · rw [swap_cycle_eq_of_cpu w e l htier (by rw [h1]; decide)]
    obtain ⟨tier, slot, saved⟩ := e
    simp only at h1 h2 ⊢
    rw [h1, h2]

end llama_layer_window

namespace scenario

/-- A CPU-tier layer entry that is not currently staged. -/
def ent_cpu : llama_layer_window_entry :=
  { tier := llama_layer_tier.CPU, staging_slot := -1, saved_ptrs := [] }

/-- A GPU-tier (permanently resident) layer entry. -/
def ent_gpu : llama_layer_window_entry :=
  { tier := llama_layer_tier.GPU, staging_slot := -1, saved_ptrs := [] }

/-- A layer with two tensors and one null field. -/
def layer1 : llama_layer :=
  [some { data := 100, buffer := 7, nbytes := 64 }, none,
   some { data := 200, buffer := 7, nbytes := 32 }]

end scenario

/-- C6: `swap_layer_to_gpu(il, layer)` followed by `swap_layer_to_cpu(il,
layer)` restores every tensor's original data pointer and buffer handle
exactly: for a GPU-tier layer both operations are no-ops, and for a layer
that is not currently staged the pair of swaps is the identity on the layer's
tensors (and, starting from a clean entry, on the whole entry–layer pair for
any number of swap cycles); moreover both operations preserve the tensor
descriptor identities — which positions of the layer hold a node — for every
input. -/
theorem C6_swap_round_trip :
    (∀ (w : llama_layer_window) (e : llama_layer_window_entry) (l : llama_layer),
       e.tier = llama_layer_tier.GPU →
       w.swap_layer_to_gpu e l = (e, l) ∧ llama_layer_window.swap_layer_to_cpu e l = (e, l)) ∧
    (∀ (w : llama_layer_window) (e : llama_layer_window_entry) (l : llama_layer),
       e.staging_slot < 0 → (w.swap_cycle (e, l)).2 = l) ∧
    (∀ (w : llama_layer_window) (e : llama_layer_window_entry) (l : llama_layer),
       e.staging_slot = -1 → e.saved_ptrs = [] →
       ∀ n : Nat, (w.swap_cycle)^[n] (e, l) = (e, l)) ∧
    (∀ (w : llama_layer_window) (e : llama_layer_window_entry) (l : llama_layer),
       llama_layer_window.tensor_shape (w.swap_layer_to_gpu e l).2 =
         llama_layer_window.tensor_shape l ∧
       llama_layer_window.tensor_shape (llama_layer_window.swap_layer_to_cpu e l).2 =
         llama_layer_window.tensor_shape l) := by
  refine ⟨fun w e l h => ⟨swap_gpu_noop_of_gpu w e l h, swap_cpu_noop_of_gpu e l h⟩,
    fun w e l h => swap_cycle_layer_eq w e l h,
    fun w e l h1 h2 n => Function.iterate_fixed (swap_cycle_fixed w e l h1 h2) n,
    fun w e l => ⟨?_, ?_⟩⟩
  · by_cases htier : e.tier = llama_layer_tier.GPU
    · rw [swap_gpu_noop_of_gpu w e l htier]
    · by_cases hslot : 0 ≤ e.staging_slot
      · simp only [llama_layer_window.swap_layer_to_gpu, if_neg htier, if_pos hslot]
      · simp only [llama_layer_window.swap_layer_to_gpu, if_neg htier, if_neg hslot]
        exact llama_layer_window.stage_tensors_shape _ _ l 0 0
  · by_cases htier : e.tier = llama_layer_tier.GPU
    · rw [swap_cpu_noop_of_gpu e l htier]
    · by_cases hslot : e.staging_slot < 0
      · simp only [llama_layer_window.swap_layer_to_cpu, if_neg htier, if_pos hslot]
      · simp only [llama_layer_window.swap_layer_to_cpu, if_neg htier, if_neg hslot]
        exact llama_layer_window.restore_ptrs_shape _ l

/-- C6 witness: two full swap cycles on a clean CPU-tier entry with a
three-field layer return the exact starting entry and layer. -/
theorem C6_swap_round_trip_witness :
    (scenario.w40.swap_cycle)^[2] (scenario.ent_cpu, scenario.layer1) =
      (scenario.ent_cpu, scenario.layer1) :=
  C6_swap_round_trip.2.2.1 scenario.w40 scenario.ent_cpu scenario.layer1 rfl rfl 2

/-- C9 counterexample: on the freshly constructed `(64, 32)` allocator, block
0 is free (`ref_count[0] = 0`, on the free list), yet `inc_ref(0)` — as
compiled, with the `InvalidBlock` condition checked only by a debug
`assert` — changes the allocator state (reviving the block to ref count 1)
and returns no error, contradicting the claim that the failure is surfaced in
release builds with the state unchanged. -/
theorem C9_invalidblock_counterexample :
    (llama_block_allocator.mk_alloc 64 32).ref_count.getD 0 0 = 0 ∧
    0 ∈ (llama_block_allocator.mk_alloc 64 32).free_list ∧
    ((llama_block_allocator.mk_alloc 64 32).inc_ref 0).ref_count.getD 0 0 = 1 ∧
    ¬ (llama_block_allocator.mk_alloc 64 32).inc_ref 0 =
        llama_block_allocator.mk_alloc 64 32 := by
  decide

/-- C9 (amended): under the precondition `b < num_blocks` and
`ref_count[b] > 0`, `free_block` decrements the ref count and pushes `b` onto
the free list exactly when the count reaches zero, and `inc_ref` increments
the count without touching the free list; the `InvalidBlock` conditions
(`b ≥ num_blocks` or `ref_count[b] = 0`) are checked only by debug
assertions, so in release builds the operations proceed unchecked — in
particular `inc_ref` on a free block simply increments its count to 1 with no
failure surfaced. -/
theorem C9_free_inc_behavior :
    (∀ (a : llama_block_allocator) (b : Nat), b < a.ref_count.length →
       0 < a.ref_count.getD b 0 →
       (a.free_block b).ref_count.getD b 0 = a.ref_count.getD b 0 - 1 ∧
       (a.ref_count.getD b 0 = 1 → (a.free_block b).free_list = b :: a.free_list) ∧
       (1 < a.ref_count.getD b 0 → (a.free_block b).free_list = a.free_list)) ∧
    (∀ (a : llama_block_allocator) (b : Nat), b < a.ref_count.length →
       (a.inc_ref b).ref_count.getD b 0 = a.ref_count.getD b 0 + 1 ∧
       (a.inc_ref b).free_list = a.free_list) := by
  constructor
  · intro a b hlen hpos
    by_cases h0 : a.ref_count.getD b 0 - 1 = 0
    · rw [free_block_eq_of_zero a b h0]
      refine ⟨list_getD_set_self _ _ _ hlen, fun _ => rfl, fun hgt => ?_⟩
      omega
    · rw [free_block_eq_of_pos a b h0]
      refine ⟨list_getD_set_self _ _ _ hlen, fun h1 => ?_, fun _ => rfl⟩
      omega
  · intro a b hlen
    exact ⟨list_getD_set_self _ _ _ hlen, rfl⟩

/-- C9 witness: the success behaviour instantiated on the allocator holding
both blocks of `mk_alloc 64 32` with ref count 1. -/
theorem C9_free_inc_behavior_witness :
    ((scenario.a_two.free_block 0).ref_count.getD 0 0 =
        scenario.a_two.ref_count.getD 0 0 - 1 ∧
     (scenario.a_two.ref_count.getD 0 0 = 1 →
        (scenario.a_two.free_block 0).free_list = 0 :: scenario.a_two.free_list) ∧
     (1 < scenario.a_two.ref_count.getD 0 0 →
        (scenario.a_two.free_block 0).free_list = scenario.a_two.free_list)) ∧
    ((scenario.a_two.inc_ref 1).ref_count.getD 1 0 =
        scenario.a_two.ref_count.getD 1 0 + 1 ∧
     (scenario.a_two.inc_ref 1).free_list = scenario.a_two.free_list) :=
  ⟨C9_free_inc_behavior.1 scenario.a_two 0 (by decide) (by decide),
   C9_free_inc_behavior.2 scenario.a_two 1 (by decide)⟩
